import Mathlib

/-!
Verification of the inflection-table extractor core (wiktextract/inflection.py).

The development shallowly embeds the table interpreter: the header-map value
evaluator (expand_header), the column-tag composer (compute_coltags), the
table driver (parse_simple_table) and the deduplicating wrapper
(handle_generic_table).  Pure-regex helpers and collaborator services that
live outside the embedded module (clean_header internals, classify_desc,
decode_tags, split_at_comma_semi, parse_head_final_tags, the tag catalogue
valid_tags, lang-specific regex tables) are abstracted as components of an
`Collab` record of oracle functions; the driver's control flow, state updates
and data handling are embedded faithfully.
-/

/-- Character-list helpers: the Lean core String functions (trim, splitOn,
startsWith via Substring, ...) are implemented with well-founded recursion
and do not reduce inside the kernel, so the development uses structural
implementations over the underlying character lists. -/
def isPrefixChars : List Char → List Char → Bool
  | [], _ => true
  | _ :: _, [] => false
  | a :: as, b :: bs => a == b && isPrefixChars as bs

/-- Python s.startswith(pat). -/
def strStarts (s pat : String) : Bool := isPrefixChars pat.data s.data

/-- Python s.endswith(pat). -/
def strEnds (s pat : String) : Bool := isPrefixChars pat.data.reverse s.data.reverse

def hasSubList (pat : List Char) : List Char → Bool
  | [] => isPrefixChars pat []
  | c :: rest => isPrefixChars pat (c :: rest) || hasSubList pat rest

/-- Python whitespace test of str.strip / str.split. -/
def isWs (c : Char) : Bool := c == ' ' || c == '\t' || c == '\n' || c == '\r'

/-- Python s.strip(). -/
def strTrim (s : String) : String :=
  String.mk (((s.data.dropWhile isWs).reverse.dropWhile isWs).reverse)

/-- First character of a non-empty string (s[0]). -/
def strFront (s : String) : Char := s.data.headD ' '

/-- Split a character list at a separator character. -/
def splitChars (sep : Char) : List Char → List (List Char)
  | [] => [[]]
  | c :: rest =>
      let r := splitChars sep rest
      if c == sep then [] :: r
      else
        match r with
        | [] => [[c]]
        | h :: t => (c :: h) :: t

/-- Python sep.join(l). -/
def strIntercalate (sep : String) : List String → String
  | [] => ""
  | [s] => s
  | s :: rest => s ++ sep ++ strIntercalate sep rest

/-- Boolean code-point lexicographic order on strings (Python sorted order). -/
def leChars : List Char → List Char → Bool
  | [], _ => true
  | _ :: _, [] => false
  | a :: as, b :: bs => a < b || (a == b && leChars as bs)

def strLe (a b : String) : Bool := leChars a.data b.data

/-- Python str.split(): whitespace-separated words (we split on single spaces,
which is what the static tag-expression data uses). -/
def words (s : String) : List String :=
  ((splitChars ' ' s.data).map String.mk).filter (fun w => w != "")

/-- Insert a string into a ≤-sorted list of strings. -/
def insSorted (s : String) : List String → List String
  | [] => [s]
  | t :: ts => if strLe s t then s :: t :: ts else t :: insSorted s ts

/-- Python sorted() on a list of strings. -/
def sortTags (l : List String) : List String := l.foldr insSorted []

/-- Python tuple(sorted(set(l))): deduplicate, then sort. -/
def canon (l : List String) : List String := sortTags l.dedup

/-- Add an element to a list only if absent (Python set.add with
insertion-ordered iteration). -/
def sadd {α : Type} [DecidableEq α] (x : α) (l : List α) : List α :=
  if x ∈ l then l else l ++ [x]

/-- Python substring test `s.find(pat) >= 0`. -/
def containsSub (s pat : String) : Bool := hasSubList pat.data s.data

/-! ## Header-map values and expand_header (inflection.py lines 451-533)

Values of the static header label map `infl_map` are strings, lists of
strings, or nested conditional dictionaries; anything else hits the
"UNIMPLEMENTED INFL_MAP VALUE" debug branch.  The dictionaries parsed from
the static data are finite trees, which the inductive type captures. -/

inductive InflValue where
  | str (s : String)
  | list (l : List String)
  | cond (lang : Option (List String)) (ifc : Option String)
      (thenv : Option InflValue) (elsev : Option InflValue)
  | bad

/-- One conditional evaluation: the "lang" condition (language must be among
the listed ones) and the "if" condition (all listed tags in tags0, or any of
them under the "any: " prefix).  Mirrors inflection.py lines 494-517;
a false "lang" part short-circuits the "if" part exactly as in the source. -/
def evalCond (lang : String) (tags0 : List String)
    (lc : Option (List String)) (ic : Option String) : Bool :=
  (match lc with
   | none => true
   | some ls => ls.contains lang) &&
  (match ic with
   | none => true
   | some c =>
       if strStarts c "any: " then
         (words (String.mk (c.data.drop 5))).any (fun t => tags0.contains t)
       else (words c).all (fun t => tags0.contains t))

/-- Recursive form of the expand_header value-interpretation loop
(inflection.py lines 476-533).  A string leaf yields one sorted tag tuple, a
list leaf one per element; a missing "then"/"else" stands for the empty
string, which yields the empty tag set; a non-string non-list non-dict value
yields [()].  -/
def expandValue (lang : String) (tags0 : List String) : InflValue → List (List String)
  | .str s => [sortTags (words s)]
  | .list l => l.map (fun x => sortTags (words x))
  | .bad => [[]]
  | .cond lc ic thenv elsev =>
      if evalCond lang tags0 lc ic then
        match thenv with
        | some v => expandValue lang tags0 v
        | none => [[]]
      else
        match elsev with
        | some v => expandValue lang tags0 v
        | none => [[]]

/-- Fuel-indexed form of the same loop: one unit of fuel per iteration of the
Python `while True`.  Returns none when fuel runs out before a leaf. -/
def expandLoop (lang : String) (tags0 : List String) : Nat → InflValue → Option (List (List String))
  | 0, _ => none
  | _ + 1, .str s => some [sortTags (words s)]
  | _ + 1, .list l => some (l.map (fun x => sortTags (words x)))
  | _ + 1, .bad => some [[]]
  | n + 1, .cond lc ic thenv elsev =>
      if evalCond lang tags0 lc ic then
        expandLoop lang tags0 n (match thenv with | some v => v | none => .str "")
      else
        expandLoop lang tags0 n (match elsev with | some v => v | none => .str "")

/-- Number of loop iterations sufficient to interpret a value: the height of
the conditional chain. -/
def sizeIV : InflValue → Nat
  | .str _ => 1
  | .list _ => 1
  | .bad => 1
  | .cond _ _ (some tv) (some ev) => 1 + max (sizeIV tv) (sizeIV ev)
  | .cond _ _ (some tv) none => 1 + max (sizeIV tv) 1
  | .cond _ _ none (some ev) => 1 + max 1 (sizeIV ev)
  | .cond _ _ none none => 2

/-- Lookup in an association-list model of a Python dict. -/
def alookup (m : List (String × InflValue)) (k : String) : Option InflValue :=
  match m.find? (fun p => p.1 == k) with
  | some p => some p.2
  | none => none

/-- expand_header (inflection.py lines 451-533): look the text up in
infl_map, else in the prefix map (infl_start_re / infl_map_start, abstracted
as one lookup function), then interpret the value; an unrecognized header
yields the empty list of alternatives. -/
def expand_header (infl_map : List (String × InflValue))
    (infl_start : String → Option InflValue)
    (lang text : String) (tags0 : List String) : List (List String) :=
  match alookup infl_map text with
  | some v => expandValue lang tags0 v
  | none =>
      match infl_start text with
      | some v => expandValue lang tags0 v
      | none => []

/-! ## Header spans and the column-tag composer (inflection.py lines 264-287, 536-692) -/

/-- HdrSpan (inflection.py lines 264-287): saved information about a header
cell/span. -/
structure HdrSpan where
  start : Nat
  colspan : Nat
  rownum : Nat
  tagsets : List (List String)
  used : Bool
  text : String
deriving DecidableEq

/-- The HdrSpan constructor normalization: each tag tuple is
tuple(sorted(set(tags))) and the tagsets form a set. -/
def mkHdrSpan (start colspan rownum : Nat) (tagsets : List (List String))
    (text : String) : HdrSpan :=
  ⟨start, colspan, rownum, (tagsets.map (fun ts => canon ts)).dedup, false, text⟩

/-- Does some tag of some tag-set of tss have category c under the tag
catalogue vt?  (Python: "c in new_cats" style checks.) -/
def hasCat (vt : String → String) (c : String) (tss : List (List String)) : Bool :=
  tss.any (fun ts => ts.any (fun t => vt t == c))

/-- Are all tags of all tag-sets of tss within the given category list?
(Python: "not in_cats - set((...))" style checks.) -/
def tagsInCats (vt : String → String) (cats : List String)
    (tss : List (List String)) : Bool :=
  tss.all (fun ts => ts.all (fun t => cats.contains (vt t)))

/-- Do the two alternatives agree once all tags of category c are removed?
(Set comparison through the canonical sorted-dedup form.) -/
def sameExceptCat (vt : String → String) (c : String) (a b : List String) : Bool :=
  canon (a.filter (fun t => vt t != c)) == canon (b.filter (fun t => vt t != c))

/-- Do the two alternatives differ in only one category: is there a single
category (of some tag occurring in them) outside which they agree? -/
def diffOneCat (vt : String → String) (a b : List String) : Bool :=
  ((a ++ b).map vt).any (fun c => sameExceptCat vt c a b)

/-- Replace the first alternative of the list that differs from a in only
one category by its union with a; none when there is no such alternative. -/
def mergeFirst (vt : String → String) (a : List String) :
    List (List String) → Option (List (List String))
  | [] => none
  | b :: rest =>
      if diffOneCat vt a b then some (canon (a ++ b) :: rest)
      else
        match mergeFirst vt a rest with
        | some rest' => some (b :: rest')
        | none => none

/-- One collapse step: union the first pair of alternatives that differ in
only one category, shortening the list by one; none at the fixed point. -/
def collapseStep (vt : String → String) :
    List (List String) → Option (List (List String))
  | [] => none
  | a :: rest =>
      match mergeFirst vt a rest with
      | some rest' => some rest'
      | none =>
          match collapseStep vt rest with
          | some rest' => some (a :: rest')
          | none => none

/-- Collapse to the fixed point; every step shortens the list, so fuel equal
to the list length suffices. -/
def collapseAll (vt : String → String) : Nat → List (List String) → List (List String)
  | 0, l => l
  | n + 1, l =>
      match collapseStep vt l with
      | some l' => collapseAll vt n l'
      | none => l

/-- Modelled from the spec: merge_tagsets lives in
wiktextract/form_descriptions.py, which is not part of the embedded sources.
The spec describes merging as a cross-product by category in which
"alternatives that differ in only one category collapse; otherwise multiply
out" (the source's own comment at inflection.py lines 610-613 describes the
same collapse).  We form the multiplied-out cross-product of canonical
pairwise unions and then collapse alternatives differing in a single
category into their union until none remain. -/
def merge_tagsets (vt : String → String) (ts1 ts2 : List (List String)) :
    List (List String) :=
  let prod := (ts1.flatMap (fun a => ts2.map (fun b => canon (a ++ b)))).dedup
  collapseAll vt prod.length prod

/-- The special-case analysis for a header span that does not line up with
the queried window (inflection.py lines 559-619): a strictly contained span,
with other same-row spans contained in the window and all same-row spans
outside it carrying only number/gender/case tags, is a candidate; its
tag-sets are replaced by the unconstrained set([()]) when the contained
spans only involve gender/number/person/case categories, one of
number/gender occurs, and none of those categories (nor number/gender)
occurs on the same row outside the window.  Returns none when the span is
ignored, otherwise the candidate tag-sets.  The list `all` is the full
indexed span list; index inequality models Python object identity
(`x is not hdrspan`). -/
def spanCandidate (vt : String → String) (all : List (Nat × HdrSpan))
    (start colspan : Nat) (i : Nat) (h : HdrSpan) : Option (List (List String)) :=
  if h.start > start ∨ h.start + h.colspan < start + colspan then
    if (h.start ≥ start && h.start + h.colspan ≤ start + colspan)
       && all.any (fun p => p.1 ≠ i && p.2.rownum == h.rownum
            && p.2.start ≥ start && p.2.start + p.2.colspan ≤ start + colspan)
       && all.all (fun p => p.2.rownum ≠ h.rownum || p.2.start < h.start
            || p.2.start + p.2.colspan > h.start + h.colspan
            || tagsInCats vt ["number", "gender", "case"] p.2.tagsets) then
      let inSpans := all.filter (fun p => p.2.rownum == h.rownum
            && p.2.start ≥ start && p.2.start + p.2.colspan ≤ start + colspan)
      let outSpans := all.filter (fun p => p.2.rownum == h.rownum
            && (p.2.start < start || p.2.start + p.2.colspan > start + colspan))
      let inTss := inSpans.flatMap (fun p => p.2.tagsets)
      let catInInCats := fun c : String =>
            c == "number" || c == "gender"
            || inTss.any (fun ts => ts.any (fun t => vt t == c))
      if tagsInCats vt ["gender", "number", "person", "case"] inTss
         && (hasCat vt "number" inTss || hasCat vt "gender" inTss)
         && outSpans.all (fun p =>
              p.2.tagsets.all (fun ts => ts.all (fun t => ¬ catInInCats (vt t)))) then
        some [[]]
      else
        some h.tagsets
    else
      none
  else
    some h.tagsets

/-- The main walk of compute_coltags (inflection.py lines 557-683): spans in
reverse insertion order, key-based reuse suppression, the five stop rules,
merging otherwise.  Returns the accumulated coltags (none when no span
matched) and the list of indices whose `used` flag the call sets when
mark_used is true. -/
def coltagsLoop (vt : String → String) (all : List (Nat × HdrSpan))
    (start colspan : Nat) :
    List (Nat × HdrSpan) → List (Nat × Nat) → Option (List (List String)) →
    List Nat → Option (List (List String)) × List Nat
  | [], _, ct, marked => (ct, marked)
  | (i, h) :: rest, usedKeys, ct, marked =>
      match spanCandidate vt all start colspan i h with
      | none => coltagsLoop vt all start colspan rest usedKeys ct marked
      | some tagsets =>
          if (h.start, h.colspan) ∈ usedKeys then
            coltagsLoop vt all start colspan rest usedKeys ct marked
          else
            let usedKeys' := (h.start, h.colspan) :: usedKeys
            let marked' := marked ++ [i]
            match ct with
            | none => coltagsLoop vt all start colspan rest usedKeys' (some tagsets) marked'
            | some cur =>
                if hasCat vt "detail" tagsets then
                  (some (if cur.all (fun ts => ts = []) then
                           merge_tagsets vt cur tagsets
                         else cur), marked')
                else if hasCat vt "non-finite" tagsets
                     && (hasCat vt "mood" cur || hasCat vt "tense" cur
                         || hasCat vt "non-finite" cur || hasCat vt "person" cur
                         || hasCat vt "number" cur) then
                  (some cur, marked')
                else if hasCat vt "mood" tagsets && hasCat vt "mood" cur then
                  (some cur, marked')
                else if hasCat vt "number" cur && hasCat vt "number" tagsets then
                  (some cur, marked')
                else if hasCat vt "number" cur && hasCat vt "gender" tagsets then
                  (some cur, marked')
                else
                  coltagsLoop vt all start colspan rest usedKeys'
                    (some (merge_tagsets vt cur tagsets)) marked'

/-- Index the span list (Python object identity made explicit). -/
def enumFrom : Nat → List HdrSpan → List (Nat × HdrSpan)
  | _, [] => []
  | n, h :: t => (n, h) :: enumFrom (n + 1) t

/-- Set the used flag of the spans at the given indices (the in-place
`hdrspan.used = True` of the loop, applied once at the end; the flag is
never read inside compute_coltags, so the timing is equivalent). -/
def markUsed (marked : List Nat) : Nat → List HdrSpan → List HdrSpan
  | _, [] => []
  | k, h :: t =>
      (if k ∈ marked then { h with used := true } else h) :: markUsed marked (k + 1) t

/-- compute_coltags (inflection.py lines 536-692).  The celltext argument of
the source is used only for debug prints and is omitted.  Returns the
composed column tag-sets (set([()]) when no header matched) together with the
updated span list. -/
def compute_coltags (vt : String → String) (hdrspans : List HdrSpan)
    (start colspan : Nat) (mark_used : Bool) :
    List (List String) × List HdrSpan :=
  let all := enumFrom 0 hdrspans
  let r := coltagsLoop vt all start colspan all.reverse [] none []
  (match r.1 with | some ct => ct | none => [[]],
   if mark_used then markUsed r.2 0 hdrspans else hdrspans)

/-! ## Data model of the table driver (inflection.py lines 22-35, 238-261, 716-1171) -/

/-- A form record as produced by the driver: the dict
issued at inflection.py lines 1077-1082 (roman/ipa keys optional). -/
structure Form where
  form : String
  tags : List String
  source : String
  roman : Option String
  ipa : Option String
deriving DecidableEq

/-- InflCell (inflection.py lines 238-261).  `cid` models Python object
identity: rows are pre-expanded, one shared object per rowspan/colspan
repetition, and the driver keys cell_rowcnt on id(cell). -/
structure InflCell where
  cid : Nat
  text : String
  is_title : Bool
  colspan : Nat
  rowspan : Nat
deriving DecidableEq

/-- Result quadruple of clean_header (inflection.py line 377):
(cleaned text, ref markers, note definitions, local header tags). -/
structure CleanRes where
  text : String
  refs : List String
  defs : List (String × String)
  tags : List String

/-- Collaborator services and regex helpers used by the driver, abstracted
as oracle functions.  Each field stands for one concrete helper:
  infl_map / infl_start     static header label map and prefix map
  vt                        valid_tags tag-to-category catalogue
  is_sup                    is_superscript (inflection.py 290-297)
  sub_ws                    re.sub(spaces, one space) of line 797
  sub_sp                    re.sub(space-tab-cr, one space) of line 911
  clean_header              clean_header (300-377), word argument unused
  strip_paren               the paren-removing re.sub of line 802
  collapse_commas           the comma-collapsing re.subs of lines 806-807
  parse_title               parse_title (380-448), args (title, source)
  split_cell                split_at_comma_semi from datautils
  classify_desc, decode_tags, parse_head_final_tags
                            form_descriptions collaborators
  extract_ipa               the IPA-extracting regexes of lines 951-954
  clean_form_text           the normalizing re.subs of lines 955-960
  find_paren                re.search of a parenthesized group (line 966),
                            as (before, inside, after) with
                            form = before ++ matched ++ after
  lang_specific_tags        lang_specific_tags (695-713), args (lang,pos,form) -/
structure Collab where
  infl_map : List (String × InflValue)
  infl_start : String → Option InflValue
  vt : String → String
  is_sup : Char → Bool
  sub_ws : String → String
  sub_sp : String → String
  clean_header : String → Bool → CleanRes
  strip_paren : String → String
  collapse_commas : String → String
  parse_title : String → String → List String × List String × List Form
  split_cell : String → List String → List String
  classify_desc : String → String
  decode_tags : String → List (List String) × List String
  extract_ipa : String → String × List String
  clean_form_text : String → String
  find_paren : String → Option (String × String × String)
  lang_specific_tags : String → String → String → String × List String
  parse_head_final_tags : String → String → String × List String

/-- The per-table immutable context (word, language, part of speech, source
label). -/
structure TCtx where
  word : String
  lang : String
  pos : String
  source : String

/-- IGNORED_COLVALUES (inflection.py lines 22-25). -/
def IGNORED_COLVALUES : List String :=
  ["-", "־", "᠆", "‐", "‑", "‒", "–", "—", "―", "−",
   "⸺", "⸻", "﹘", "﹣", "－", "/", "?"]

/-- noinherit_tags (inflection.py lines 27-35). -/
def noinherit_tags : List String :=
  ["infinitive-i", "infinitive-i-long", "infinitive-ii",
   "infinitive-iii", "infinitive-iv", "infinitive-v"]

/-- The Germanic language list of the article post-processing step
(inflection.py lines 1100-1102). -/
def germanic_langs : List String :=
  ["Alemannic German", "Cimbrian", "German", "German Low German",
   "Hunsrik", "Luxembourish", "Pennsylvania German"]

/-- lang_tag_mappings (inflection.py lines 223-228). -/
def lang_tag_mappings :
    List (List String × List String × List (List String × List String)) :=
  [(["Armenian"], ["noun"],
    [(["possessive", "singular"], ["possessive", "possessive-single"]),
     (["possessive", "plural"], ["possessive", "possessive-many"])])]

/-- One pass of the tag-replacement loop body (inflection.py lines
1062-1073): each applicable rule rewrites tags to (tags - src) | dst;
returns the new tags and whether anything changed. -/
def mapPass (lang pos : String) (tags : List String) : List String × Bool :=
  lang_tag_mappings.foldl
    (fun acc entry =>
      if entry.1.contains lang && entry.2.1.contains pos then
        entry.2.2.foldl
          (fun acc2 rule =>
            if rule.1.all (fun t => acc2.1.contains t) then
              (((acc2.1.filter (fun t => !rule.1.contains t)) ++ rule.2).dedup, true)
            else acc2)
          acc
      else acc)
    (tags, false)

/-- The `while changed` fixpoint loop (inflection.py lines 1060-1073) with
explicit fuel.  Every rule of the embedded table consumes a singular/plural
tag and introduces neither, so the fixed point is reached within two passes;
the driver calls this with fuel 4. -/
def applyTagMappings : Nat → String → String → List String → List String
  | 0, _, _, tags => tags
  | n + 1, lang, pos, tags =>
      let r := mapPass lang pos tags
      if r.2 then applyTagMappings n lang pos r.1 else r.1

/-- One step of the Russian animacy pruning (inflection.py lines 1022-1028):
drop t1 when t1 and t2 are present without masculine and plural. -/
def animacyPrune (t1 t2 : String) (tags : List String) : List String :=
  if tags.contains t1 && tags.contains t2
     && !tags.contains "masculine" && !tags.contains "plural" then
    tags.filter (fun t => t != t1)
  else tags

/-- The four iterations of the nested animate/inanimate x neuter/feminine
loops, in source order. -/
def russianAnimacy (tags : List String) : List String :=
  animacyPrune "inanimate" "feminine"
    (animacyPrune "inanimate" "neuter"
      (animacyPrune "animate" "feminine"
        (animacyPrune "animate" "neuter" tags)))

/-- Separator selection for splitting a data cell (inflection.py lines
916-920): semicolon, bullet, the newline pattern and " or " always; a comma
only when the cell has no " + "; a slash only when, in addition, the cell
does not end in a slash (the slash test is nested inside the " + " test). -/
def cellSeparators (col : String) : List String :=
  let seps := [";", "•", "\\n", " or "]
  if !containsSub col " + " then
    let seps2 := seps ++ [","]
    if !(strEnds col "/") then seps2 ++ ["/"] else seps2
  else seps

/-- The cleaning applied to an alternative before script classification
(inflection.py lines 926-928): drop superscript characters, then strip from
the first caret to the end. -/
def cleanForClassify (is_sup : Char → Bool) (x : String) : String :=
  String.mk ((x.data.filter (fun c => !is_sup c)).takeWhile (fun c => c != '^'))

/-- The condition of the romanization-pairing heuristic (inflection.py lines
925-935): even length, first half classifying as "other", second half as
"romanization" or "english". -/
def pairCond (classify : String → String) (is_sup : Char → Bool)
    (alts : List String) : Bool :=
  alts.length % 2 == 0
  && (alts.take (alts.length / 2)).all
       (fun x => classify (cleanForClassify is_sup x) == "other")
  && (alts.drop (alts.length / 2)).all
       (fun x => classify (cleanForClassify is_sup x) == "romanization"
              || classify (cleanForClassify is_sup x) == "english")

/-- Romanization pairing (inflection.py lines 925-939): zip the halves when
the condition holds, else pair every alternative with the empty roman. -/
def pairAlts (classify : String → String) (is_sup : Char → Bool)
    (alts : List String) : List (String × String) :=
  if pairCond classify is_sup alts then
    (alts.take (alts.length / 2)).zip (alts.drop (alts.length / 2))
  else alts.map (fun x => (x, ""))

/-! ## The table driver parse_simple_table (inflection.py lines 716-1124) -/

/-- The driver state that persists across rows: output records, header
spans, per-column text flags, row number, the running title variable (after
the `for title in titles` loop it holds the last title), title-derived tag
lists, the diagnostic log of ctx.debug, and the per-cell row counter keyed
on cell identity. -/
structure PST where
  ret : List Form
  hdrspans : List HdrSpan
  col_has_text : List Bool
  rownum : Nat
  title : Option String
  global_tags : List String
  word_tags : List String
  debug : List String
  rowcnt : Nat → Nat

/-- The per-row state (inflection.py lines 772-777). -/
structure RState where
  rowtags : List (List String)
  have_hdr : Bool
  have_text : Bool
  col0_hdrspan : Option Nat
  col0_followed : Bool

def initRS : RState := ⟨[[]], false, false, none, false⟩

/-- Grow col_has_text with False entries up to index j and set entry j
(inflection.py lines 818-820 and 904-906). -/
def setTrueAt (l : List Bool) (j : Nat) : List Bool :=
  (l ++ List.replicate (j + 1 - l.length) false).set j true

/-- The debug message of inflection.py line 812. -/
def mkUnhandledMsg (col : String) : String :=
  "inflection table: unhandled header: " ++ col

/-- Header text resolution (inflection.py lines 801-816): the cleaned text
itself, else its paren-stripped variant, else its comma-collapsed variant,
each looked up in infl_map; else the text when the prefix map matches; none
when unresolvable. -/
def headerResolve (ext : Collab) (text : String) : Option String :=
  if (alookup ext.infl_map text).isSome then some text
  else
    let t1 := ext.strip_paren text
    if (alookup ext.infl_map t1).isSome then some t1
    else
      let t2 := ext.collapse_commas text
      if (alookup ext.infl_map t2).isSome then some t2
      else if (ext.infl_start text).isSome then some text
      else none

/-- Default span for list indexing (never produced by the driver). -/
def defaultSpan : HdrSpan := ⟨0, 1, 0, [], false, ""⟩

/-- Header-cell handling (inflection.py lines 795-887).  An unresolvable
header records a diagnostic (unless its text is an ignored column value) and
leaves all other state untouched; a reset marker clears the span list on the
first row of the cell; otherwise row tags and a new header span are computed.
compute_coltags is referentially transparent with mark_used=False, so the
per-rt0 recomputation of the source is hoisted out of the fold. -/
def processHeaderCell (ext : Collab) (tc : TCtx) (j : Nat) (cell : InflCell)
    (first : Bool) (st : PST) (rs : RState) : PST × RState :=
  let col := ext.sub_ws cell.text
  let cr := ext.clean_header col true
  if cr.text = "" then (st, rs)
  else
    match headerResolve ext cr.text with
    | none =>
        if cr.text ∈ IGNORED_COLVALUES then (st, rs)
        else ({ st with debug := st.debug ++ [mkUnhandledMsg col] }, rs)
    | some text =>
        let st := { st with col_has_text := setTrueAt st.col_has_text j }
        let v := expand_header ext.infl_map ext.infl_start tc.lang text []
        if v.any (fun tt => tt.contains "!") then
          if first then ({ st with hdrspans := [] }, rs) else (st, rs)
        else
          let rs1 := if rs.have_text then { rs with rowtags := [[]] } else rs
          let rs2 := { rs1 with have_hdr := true }
          let cols := (compute_coltags ext.vt st.hdrspans j cell.colspan false).1
          let acc := rs2.rowtags.foldl (fun a rt0 =>
              cols.foldl (fun a ct0 =>
                let tags0 := rt0 ++ ct0 ++ st.global_tags
                let alt_tags :=
                  expand_header ext.infl_map ext.infl_start tc.lang text tags0
                alt_tags.foldl (fun a tt =>
                    (sadd (canon (tt ++ rt0 ++ cr.tags)) a.1, sadd tt a.2)) a) a)
            (([], []) : List (List String) × List (List String))
          let all_hdr_tags := acc.2
          let new_coltags := all_hdr_tags.filter
            (fun tt => !tt.any (fun t => noinherit_tags.contains t))
          let rs3 := { rs2 with rowtags := acc.1 }
          if new_coltags.any (fun tt => tt ≠ []) then
            let hdrspan := mkHdrSpan j cell.colspan st.rownum new_coltags col
            let idx := st.hdrspans.length
            let st1 := { st with hdrspans := st.hdrspans ++ [hdrspan] }
            if j == 0 then (st1, { rs3 with col0_hdrspan := some idx })
            else
              match rs3.col0_hdrspan with
              | none => (st1, rs3)
              | some i0 =>
                  let c0 := st1.hdrspans.getD i0 defaultSpan
                  if all_hdr_tags.any (fun tt => tt ≠ [])
                     && !(tagsInCats ext.vt ["person", "gender", "number"] all_hdr_tags
                          && tagsInCats ext.vt
                               ["number", "mood", "aspect", "tense", "voice",
                                "non-finite", "case", "possession"] c0.tagsets) then
                    (st1, { rs3 with col0_followed := true })
                  else (st1, rs3)
          else (st, rs3)

/-- The per-alternative form pipeline and emission loop (inflection.py lines
941-1083), for one (form, base_roman) alternative of a data cell.  Only the
ret list of the driver state changes. -/
def processAlt (ext : Collab) (tc : TCtx) (st : PST) (rs : RState)
    (combined : List (List String)) (fr : String × String) : PST :=
  let cr := ext.clean_header (strTrim fr.1) false
  let br := if fr.2 ≠ "" then ext.clean_header fr.2 false else ⟨fr.2, [], [], []⟩
  let extra0 := cr.tags ++ br.tags
  let ipr := if containsSub cr.text "/" then ext.extract_ipa cr.text else (cr.text, [])
  let ipas := ipr.2
  let form4 := ext.clean_form_text ipr.1
  let form5 := if strStarts form4 "*" then String.mk (form4.data.drop 1) else form4
  let pr : String × String × List String :=
    match ext.find_paren form5 with
    | none => (form5, br.text, extra0)
    | some (before, inside, after) =>
        if ext.classify_desc inside == "tags" then
          let dt := ext.decode_tags inside
          if dt.2 = [] then
            (strTrim (before ++ " " ++ after), br.text, extra0 ++ dt.1.flatten)
          else (form5, br.text, extra0)
        else if before ≠ "" && br.text = "" && ext.classify_desc before == "other"
             && (ext.classify_desc inside == "romanization"
                 || ext.classify_desc inside == "english") then
          (strTrim (before ++ " " ++ after), inside, extra0)
        else (form5, br.text, extra0)
  match pr with
  | (formF, romanF, extraF) =>
    if formF = "" ∨ formF = "not used" ∨ formF = "not applicable"
       ∨ formF = "unchanged" then st
    else
      let final := rs.rowtags.foldl (fun (a : String × List Form) rt =>
          combined.foldl (fun (a : String × List Form) ct =>
            let tags1 := (st.global_tags ++ extraF ++ rt).dedup
            let tags2 := ct.foldl (fun tg t =>
                if ext.vt t == "mood" && tags1.any (fun t2 => ext.vt t2 == "mood")
                then tg else sadd t tg) tags1
            let ls := ext.lang_specific_tags tc.lang tc.pos a.1
            let tags3 := ls.2.foldl (fun tg t => sadd t tg) tags2
            let hf := if tc.pos == "verb" && tags3.any (fun t => ext.vt t == "non-finite")
                      then ext.parse_head_final_tags tc.lang ls.1 else (ls.1, [])
            let tags4 := hf.2.foldl (fun tg t => sadd t tg) tags3
            let tags5 := if tc.lang == "Russian" then russianAnimacy tags4 else tags4
            let tags6 :=
              if tags5.contains "personal" && !tags5.contains "pronoun"
                 && (tags5.contains "first-person" || tags5.contains "second-person"
                     || tags5.contains "third-person")
              then tags5.filter (fun t => t != "personal") else tags5
            let tags7 :=
              if tags6.contains "impersonal" then
                tags6.filter (fun t =>
                  !(["first-person", "second-person", "third-person",
                     "singular", "plural"].contains t))
              else tags6
            let tags8 :=
              if tc.pos == "verb" && tags7.contains "positive" then
                tags7.filter (fun t => t != "positive" && t != "negative")
              else tags7
            let tags9 := tags8.filter (fun t => t != "dummy-mood")
            let tagsF := sortTags (applyTagMappings 4 tc.lang tc.pos tags9)
            let dt : Form := ⟨hf.1, tagsF, tc.source,
                              if romanF ≠ "" then some romanF else none,
                              if ipas ≠ [] then some (strIntercalate ", " ipas)
                              else none⟩
            (hf.1, a.2 ++ [dt])) a)
        (formF, st.ret)
      { st with ret := final.2 }

/-- Data-cell handling (inflection.py lines 889-1083): skip ignored values,
"# " / "(see " prefixes and a top-left cell in a column without text; mark
col0-followed and have_text; compute column tags with mark_used; split the
cell; pair romanizations; process each alternative. -/
def processDataCell (ext : Collab) (tc : TCtx) (j : Nat) (cell : InflCell)
    (st : PST) (rs : RState) : PST × RState :=
  let col0 := cell.text
  if col0 ∈ IGNORED_COLVALUES then (st, rs)
  else if strStarts col0 "# " || strStarts col0 "(see " then (st, rs)
  else if j == 0 && !(st.col_has_text.getD 0 false) then (st, rs)
  else
    let rs1 := { rs with col0_followed := true, have_text := true }
    let st1 := { st with col_has_text := setTrueAt st.col_has_text j }
    let r := compute_coltags ext.vt st1.hdrspans j cell.colspan true
    let st2 := { st1 with hdrspans := r.2 }
    let col := ext.sub_sp col0
    let alts := if col != "" && ext.is_sup (strFront col) then [col]
                else ext.split_cell col (cellSeparators col)
    let palts := pairAlts ext.classify_desc ext.is_sup alts
    (palts.foldl (fun s fr => processAlt ext tc s rs1 r.1 fr) st2, rs1)

/-- The cell loop of one row (inflection.py lines 778-1083): enumerate
positions, skip continuation positions of a multi-column cell via
samecell_cnt, count rows per cell identity, dispatch on header vs data. -/
def cellsFold (ext : Collab) (tc : TCtx) :
    Nat → Nat → List InflCell → PST × RState → PST × RState
  | _, _, [], s => s
  | j, samecell, cell :: rest, (st, rs) =>
      if samecell > 0 then cellsFold ext tc (j + 1) (samecell - 1) rest (st, rs)
      else
        let samecell' := cell.colspan - 1
        let first := st.rowcnt cell.cid == 0
        let st1 := { st with rowcnt :=
          fun c => if c == cell.cid then st.rowcnt c + 1 else st.rowcnt c }
        if cell.text = "" then cellsFold ext tc (j + 1) samecell' rest (st1, rs)
        else if cell.is_title then
          cellsFold ext tc (j + 1) samecell' rest
            (processHeaderCell ext tc j cell first st1 rs)
        else
          cellsFold ext tc (j + 1) samecell' rest
            (processDataCell ext tc j cell st1 rs)

/-- The sub-title row test (inflection.py lines 754-761): the first cell is
a header with non-empty text not starting with a superscript, the text has
no entry in infl_map and no prefix-map match, and every cell of the row
carries the same (is_title, text) pair. -/
def isSubTitleRow (ext : Collab) (row : List InflCell) : Bool :=
  match row with
  | [] => false
  | c0 :: _ =>
      c0.is_title && c0.text != ""
      && !(ext.is_sup (strFront c0.text))
      && !(alookup ext.infl_map c0.text).isSome
      && !(ext.infl_start c0.text).isSome
      && row.all (fun x => x.is_title == c0.is_title && x.text == c0.text)

/-- Overwrite the colspan of the span at the given index (the end-of-row
widening assignment of inflection.py line 1091). -/
def widenAt : List HdrSpan → Nat → Nat → List HdrSpan
  | [], _, _ => []
  | h :: t, 0, n => { h with colspan := n } :: t
  | h :: t, i + 1, n => h :: widenAt t i n

/-- One row of the driver loop (inflection.py lines 750-1092): empty rows
and sub-title rows are skipped without incrementing rownum (a sub-title row
feeds parse_title when no title was seen yet and the text is no note);
otherwise the cells are processed and the column-0 span is widened to the
row length when nothing followed it. -/
def processRow (ext : Collab) (tc : TCtx) (st : PST) (row : List InflCell) : PST :=
  if row.isEmpty then st
  else if isSubTitleRow ext row then
    match row with
    | [] => st
    | c0 :: _ =>
        if st.title.isSome then st
        else
          let st1 := { st with title := some c0.text }
          if strStarts c0.text "Note:" || strStarts c0.text "Notes:" then st1
          else
            let r := ext.parse_title c0.text tc.source
            { st1 with global_tags := st1.global_tags ++ r.1,
                       word_tags := st1.word_tags ++ r.2.1,
                       ret := st1.ret ++ r.2.2 }
  else
    let s1 := cellsFold ext tc 0 0 row (st, initRS)
    let st2 := match s1.2.col0_hdrspan with
      | some idx =>
          if !s1.2.col0_followed then
            { s1.1 with hdrspans := widenAt s1.1.hdrspans idx row.length }
          else s1.1
      | none => s1.1
    { st2 with rownum := st2.rownum + 1 }

/-- Initial driver state (inflection.py lines 736-748): titles are parsed
up-front, seeding global/word tags and extra forms; the leaked loop variable
`title` holds the last title (or None). -/
def initPST (ext : Collab) (tc : TCtx) (titles : List String) : PST :=
  let r := titles.foldl (fun acc t =>
      let p := ext.parse_title t tc.source
      (acc.1 ++ p.1, acc.2.1 ++ p.2.1, acc.2.2 ++ p.2.2))
    (([], [], []) : List String × List String × List Form)
  ⟨r.2.2, [], [], 0, titles.getLast?, r.1, r.2.1, [], fun _ => 0⟩

/-- The Germanic-noun article post-processing (inflection.py lines
1098-1115). -/
def germanPostproc (lang : String) (ret : List Form) : List Form :=
  if ret.any (fun dt => dt.tags.contains "noun") && germanic_langs.contains lang then
    ret.filterMap (fun dt =>
      if dt.tags.contains "noun" then
        some { dt with tags := dt.tags.filter (fun t => t != "noun") }
      else if dt.tags.contains "indefinite" || dt.tags.contains "definite" then none
      else some dt)
  else ret

/-- parse_simple_table (inflection.py lines 716-1124).  The first component
models the Python return value (`None` would be the unparsed sentinel of the
docstring; every path of the source returns the list `ret`); the second
collects the ctx.debug diagnostics. -/
def parse_simple_table (ext : Collab) (tc : TCtx) (rows : List (List InflCell))
    (titles : List String) : Option (List Form) × List String :=
  let st := rows.foldl (processRow ext tc) (initPST ext tc titles)
  let ret1 := germanPostproc tc.lang st.ret
  let ret2 :=
    if st.word_tags ≠ [] then
      ret1 ++ [⟨strIntercalate " " (canon st.word_tags), ["word-tags"],
               tc.source ++ " title", none, none⟩]
    else ret1
  (some ret2, st.debug)

/-! ## handle_generic_table and deduplication (inflection.py lines 1127-1171) -/

/-- One iteration of the dedup loop (inflection.py lines 1154-1171) over the
state (have_forms, data forms): an exact duplicate is dropped; a record
carrying "dated" is dropped when removing "dated" leaves a non-empty tag
list already present; otherwise the record is added to both. -/
def dedupStep (s : List Form × List Form) (dt : Form) : List Form × List Form :=
  if dt ∈ s.1 then s
  else if dt.tags.contains "dated" then
    if dt.tags.filter (fun t => t != "dated") ≠ []
       ∧ { dt with tags := dt.tags.filter (fun t => t != "dated") } ∈ s.1 then s
    else (dt :: s.1, s.2 ++ [dt])
  else (dt :: s.1, s.2 ++ [dt])

/-- The dedup loop run over the returned forms, starting from the forms
already in the word's data. -/
def dedupForms (initial ret : List Form) : List Form :=
  (ret.foldl dedupStep (initial, initial)).2

/-- handle_generic_table (inflection.py lines 1127-1171): parse the table,
return unchanged on the None sentinel, otherwise append the de-duplicated
forms. -/
def handle_generic_table (ext : Collab) (tc : TCtx) (initialForms : List Form)
    (rows : List (List InflCell)) (titles : List String) :
    List Form × List String :=
  let r := parse_simple_table ext tc rows titles
  match r.1 with
  | none => (initialForms, r.2)
  | some ret => (dedupForms initialForms ret, r.2)

/-! ## Concrete instantiations used by witnesses and counterexamples.

`extC` instantiates every oracle with its concrete behaviour on the small
inputs of the test tables below ("x", "y", "Zzz", "Qqq", "Hx", "-"):
no superscripts, no decorations to clean, no separators present, no
parentheses, no language-specific rules for English. -/

def extC : Collab :=
  { infl_map := [("Hx", .str "singular")]
    infl_start := fun _ => none
    vt := fun _ => "other"
    is_sup := fun _ => false
    sub_ws := id
    sub_sp := id
    clean_header := fun c _ => ⟨c, [], [], []⟩
    strip_paren := id
    collapse_commas := id
    parse_title := fun _ _ => ([], [], [])
    split_cell := fun c _ => [c]
    classify_desc := fun _ => "other"
    decode_tags := fun _ => ([], [])
    extract_ipa := fun s => (s, [])
    clean_form_text := id
    find_paren := fun _ => none
    lang_specific_tags := fun _ _ f => (f, [])
    parse_head_final_tags := fun _ f => (f, []) }

def tcC : TCtx := ⟨"w", "English", "noun", "s"⟩

/-- A data cell of width one. -/
def dcell (cid : Nat) (text : String) : InflCell := ⟨cid, text, false, 1, 1⟩

/-- A header cell of width one. -/
def hcell (cid : Nat) (text : String) : InflCell := ⟨cid, text, true, 1, 1⟩

/-- At most one distinct tag of category c occurs in the tag list. -/
def atMostOneCat (vt : String → String) (c : String) (ts : List String) : Prop :=
  ∀ t1 ∈ ts, ∀ t2 ∈ ts, vt t1 = c → vt t2 = c → t1 = t2

instance atMostOneCatDec (vt : String → String) (c : String) (ts : List String) :
    Decidable (atMostOneCat vt c ts) :=
  inferInstanceAs (Decidable (∀ t1 ∈ ts, ∀ t2 ∈ ts, vt t1 = c → vt t2 = c → t1 = t2))

/-- At most one distinct tag of category c occurs across ALL the alternative
tag-sets of the list. -/
def atMostOneCatAll (vt : String → String) (c : String)
    (tss : List (List String)) : Prop :=
  ∀ ts1 ∈ tss, ∀ t1 ∈ ts1, ∀ ts2 ∈ tss, ∀ t2 ∈ ts2,
    vt t1 = c → vt t2 = c → t1 = t2

instance atMostOneCatAllDec (vt : String → String) (c : String)
    (tss : List (List String)) : Decidable (atMostOneCatAll vt c tss) :=
  inferInstanceAs (Decidable (∀ ts1 ∈ tss, ∀ t1 ∈ ts1, ∀ ts2 ∈ tss, ∀ t2 ∈ ts2,
    vt t1 = c → vt t2 = c → t1 = t2))

/-- A tag catalogue classifying the two example mood tags. -/
def vtM : String → String :=
  fun t => if t = "indicative" || t = "subjunctive" then "mood" else "other"

/-- A span whose single tag-set carries two mood tags. -/
def spanM : HdrSpan := ⟨0, 1, 0, [["indicative", "subjunctive"]], false, "h"⟩

/-- A span whose single tag-set carries one mood tag. -/
def spanW : HdrSpan := ⟨0, 1, 0, [["indicative"]], false, "h"⟩

/-- A classifier for the romanization-pairing witness. -/
def classifyW : String → String := fun s => if s = "aaa" then "other" else "romanization"

/-- A record with an empty tag list. -/
def formR : Form := ⟨"x", [], "s", none, none⟩

/-- The same record with only the "dated" tag added. -/
def formRD : Form := ⟨"x", ["dated"], "s", none, none⟩

/-! ## Theorems -/

theorem mem_insSorted (t s : String) (l : List String) :
    t ∈ insSorted s l ↔ t = s ∨ t ∈ l := by
  induction l with
  | nil => simp [insSorted]
  | cons h tl ih =>
      simp only [insSorted]
      split
      · simp [List.mem_cons]
      · simp only [List.mem_cons, ih]
        tauto

theorem mem_sortTags (t : String) (l : List String) :
    t ∈ sortTags l ↔ t ∈ l := by
  induction l with
  | nil => simp [sortTags]
  | cons h tl ih =>
      simp only [sortTags, List.foldr] at *
      rw [mem_insSorted]
      simp [ih]

theorem mem_canon (t : String) (l : List String) : t ∈ canon l ↔ t ∈ l := by
  rw [canon, mem_sortTags, List.mem_dedup]

/-- Fuel monotonicity of the expand_header interpretation loop: any fuel of
at least the conditional-chain height reaches the leaf and agrees with the
recursive interpretation. -/
theorem expandLoop_le (lang : String) (tags0 : List String) :
    ∀ (v : InflValue) (n : Nat), sizeIV v ≤ n →
      expandLoop lang tags0 n v = some (expandValue lang tags0 v)
  | .str s, n, h => by
      cases n with
      | zero => simp [sizeIV] at h
      | succ m => rfl
  | .list l, n, h => by
      cases n with
      | zero => simp [sizeIV] at h
      | succ m => rfl
  | .bad, n, h => by
      cases n with
      | zero => simp [sizeIV] at h
      | succ m => rfl
  | .cond lc ic thenv elsev, n, h => by
      cases n with
      | zero =>
          cases thenv <;> cases elsev <;> simp [sizeIV] at h
      | succ m =>
          rw [expandValue.eq_def]
          cases hev : evalCond lang tags0 lc ic with
          | true =>
              simp only [expandLoop, hev, if_true]
              cases thenv with
              | some v' =>
                  have hle : sizeIV v' ≤ m := by
                    cases elsev <;> simp [sizeIV] at h <;> omega
                  exact expandLoop_le lang tags0 v' m hle
              | none =>
                  have hm : 1 ≤ m := by
                    cases elsev <;> simp [sizeIV] at h <;> omega
                  cases m with
                  | zero => omega
                  | succ k => rfl
          | false =>
              simp only [expandLoop, hev, Bool.false_eq_true, if_false]
              cases elsev with
              | some v' =>
                  have hle : sizeIV v' ≤ m := by
                    cases thenv <;> simp [sizeIV] at h <;> omega
                  exact expandLoop_le lang tags0 v' m hle
              | none =>
                  have hm : 1 ≤ m := by
                    cases thenv <;> simp [sizeIV] at h <;> omega
                  cases m with
                  | zero => omega
                  | succ k => rfl

/-- C9: the header evaluator terminates on every input: interpreting any
header-map value with fuel equal to the height of its conditional chain
reaches a string or list leaf (the loop returns) and agrees with the
structurally recursive interpretation; each iteration replaces the value by
its then/else sub-value or a string, strictly reducing the chain. -/
theorem c9_expand_header_terminates (lang : String) (tags0 : List String)
    (v : InflValue) :
    expandLoop lang tags0 (sizeIV v) v = some (expandValue lang tags0 v) :=
  expandLoop_le lang tags0 v (sizeIV v) (Nat.le_refl _)

/-- markUsed changes only the used flag, and only from false to true, at the
marked indices. -/
theorem markUsed_forall (marked : List Nat) :
    ∀ (k : Nat) (spans : List HdrSpan),
      List.Forall₂ (fun h h' => h'.start = h.start ∧ h'.colspan = h.colspan
        ∧ h'.rownum = h.rownum ∧ h'.tagsets = h.tagsets ∧ h'.text = h.text
        ∧ (h'.used = h.used ∨ (h.used = false ∧ h'.used = true)))
        spans (markUsed marked k spans)
  | _, [] => List.Forall₂.nil
  | k, h :: t => by
      have tail := markUsed_forall marked (k + 1) t
      rw [markUsed]
      by_cases hk : k ∈ marked
      · rw [if_pos hk]
        refine List.Forall₂.cons ?_ tail
        refine ⟨rfl, rfl, rfl, rfl, rfl, ?_⟩
        cases hu : h.used
        · exact Or.inr ⟨rfl, rfl⟩
        · exact Or.inl rfl
      · rw [if_neg hk]
        exact List.Forall₂.cons ⟨rfl, rfl, rfl, rfl, rfl, Or.inl rfl⟩ tail

/-- C10: compute_coltags has no effect on the header-span list beyond the
used flag: the returned list has the same length and order, every span keeps
its start, colspan, rownum, tagsets and text, the used flag only ever moves
from false to true, and with mark_used = false the list is returned
entirely unchanged. -/
theorem c10_compute_coltags_frame (vt : String → String) (spans : List HdrSpan)
    (start colspan : Nat) (mu : Bool) :
    (compute_coltags vt spans start colspan mu).2.length = spans.length
    ∧ List.Forall₂ (fun h h' => h'.start = h.start ∧ h'.colspan = h.colspan
        ∧ h'.rownum = h.rownum ∧ h'.tagsets = h.tagsets ∧ h'.text = h.text
        ∧ (h'.used = h.used ∨ (mu = true ∧ h.used = false ∧ h'.used = true)))
        spans (compute_coltags vt spans start colspan mu).2
    ∧ (mu = false → (compute_coltags vt spans start colspan mu).2 = spans) := by
  cases mu with
  | false =>
      have he : (compute_coltags vt spans start colspan false).2 = spans := by
        simp [compute_coltags]
      refine ⟨by rw [he], ?_, fun _ => he⟩
      rw [he, List.forall₂_same]
      intro x _
      exact ⟨rfl, rfl, rfl, rfl, rfl, Or.inl rfl⟩
  | true =>
      have he : (compute_coltags vt spans start colspan true).2
          = markUsed (coltagsLoop vt (enumFrom 0 spans) start colspan
              (enumFrom 0 spans).reverse [] none []).2 0 spans := by
        simp [compute_coltags]
      have hf := markUsed_forall (coltagsLoop vt (enumFrom 0 spans) start colspan
              (enumFrom 0 spans).reverse [] none []).2 0 spans
      rw [he]
      refine ⟨(List.Forall₂.length_eq hf).symm, ?_, by simp⟩
      refine List.Forall₂.imp ?_ hf
      intro a b hab
      exact ⟨hab.1, hab.2.1, hab.2.2.1, hab.2.2.2.1, hab.2.2.2.2.1,
        hab.2.2.2.2.2.elim Or.inl (fun hh => Or.inr ⟨rfl, hh.1, hh.2⟩)⟩

/-- C10 witness: a concrete call with mark_used = false returns the span
list unchanged. -/
theorem c10_witness :
    (compute_coltags vtM [spanW] 0 1 false).2 = [spanW] :=
  (c10_compute_coltags_frame vtM [spanW] 0 1 false).2.2 rfl

/-- C1 (amended): parse_simple_table never returns the unparsed sentinel
(the None of its docstring, modelled as the none component): every input,
including tables with no header cells or no data cells, produces a list of
records. -/
theorem c1_always_list (ext : Collab) (tc : TCtx) (rows : List (List InflCell))
    (titles : List String) :
    (parse_simple_table ext tc rows titles).1.isSome = true := rfl

/-- C1 counterexample: a table whose single row holds a single data cell has
no header cells at all, yet the driver returns a list (here the empty list),
not the unparsed sentinel, contradicting the claimed structural-error
behaviour. -/
theorem c1_counterexample :
    (∀ cell ∈ [[dcell 1 "x"]].flatten, cell.is_title = false)
    ∧ (parse_simple_table extC tcC [[dcell 1 "x"]] []).1 = some [] := by decide

/-- C6 (amended): the separator set for a data cell always holds ";", "•",
the newline pattern and " or "; it holds "," exactly when the cell has no
" + "; and it holds "/" exactly when the cell has no " + " AND does not end
in "/" (the source nests the slash test inside the comma test, so a cell
containing " + " never gets the slash separator). -/
theorem c6_separators (col : String) :
    (";" ∈ cellSeparators col) ∧ ("•" ∈ cellSeparators col)
    ∧ ("\\n" ∈ cellSeparators col) ∧ (" or " ∈ cellSeparators col)
    ∧ (("," ∈ cellSeparators col) ↔ containsSub col " + " = false)
    ∧ (("/" ∈ cellSeparators col) ↔
        (containsSub col " + " = false ∧ strEnds col "/" = false)) := by
  unfold cellSeparators
  cases hp : containsSub col " + " with
  | false =>
      cases hs : strEnds col "/" with
      | false => simp
      | true => simp
  | true => simp

/-- C6 witness: the always-present separators at a concrete cell. -/
theorem c6_witness : "," ∈ cellSeparators "ab" :=
  (c6_separators "ab").2.2.2.2.1.mpr (by decide)

/-- C6 counterexample: for the cell "a + b", which does not end in "/", the
claimed rule ("/" included iff the cell does not end in "/") fails: the
source omits "/" because the cell contains " + ". -/
theorem c6_counterexample :
    ¬ (("/" ∈ cellSeparators "a + b") ↔ strEnds "a + b" "/" = false) := by decide

/-- C7: the romanization pairing heuristic: when the split alternatives have
even length, the first half classifies as "other" and the second half as
"romanization" or "english" (pairCond), the halves are zipped elementwise
into (native, roman) pairs, leaving half as many alternatives; otherwise
every alternative is paired with the empty romanization. -/
theorem c7_pairing (classify : String → String) (is_sup : Char → Bool)
    (alts : List String) :
    (pairCond classify is_sup alts = true →
      pairAlts classify is_sup alts
        = (alts.take (alts.length / 2)).zip (alts.drop (alts.length / 2))
      ∧ (pairAlts classify is_sup alts).length = alts.length / 2)
    ∧ (pairCond classify is_sup alts = false →
      pairAlts classify is_sup alts = alts.map (fun x => (x, ""))) := by
  constructor
  · intro h
    have hz : pairAlts classify is_sup alts
        = (alts.take (alts.length / 2)).zip (alts.drop (alts.length / 2)) := by
      simp [pairAlts, h]
    refine ⟨hz, ?_⟩
    rw [hz]
    simp only [List.length_zip, List.length_take, List.length_drop]
    omega
  · intro h
    simp [pairAlts, h]

/-- C7 witness: a concrete two-element cell pairs into one (native, roman)
tuple. -/
theorem c7_witness :
    pairAlts classifyW (fun _ => false) ["aaa", "bbb"]
      = (["aaa", "bbb"].take 1).zip (["aaa", "bbb"].drop 1)
    ∧ (pairAlts classifyW (fun _ => false) ["aaa", "bbb"]).length = 1 :=
  (c7_pairing classifyW (fun _ => false) ["aaa", "bbb"]).1 (by decide)

/-- Every dedup step either leaves the state unchanged (the record was
suppressed) or conses a record not yet in have_forms onto it and appends it
to the output. -/
theorem dedupStep_cases (s : List Form × List Form) (dt : Form) :
    dedupStep s dt = s
    ∨ (dt ∉ s.1 ∧ dedupStep s dt = (dt :: s.1, s.2 ++ [dt])) := by
  unfold dedupStep
  by_cases h1 : dt ∈ s.1
  · left; rw [if_pos h1]
  · rw [if_neg h1]
    cases h2 : dt.tags.contains "dated" with
    | true =>
        rw [if_pos rfl]
        by_cases h3 : (dt.tags.filter (fun t => t != "dated")) ≠ []
            ∧ { dt with tags := dt.tags.filter (fun t => t != "dated") } ∈ s.1
        · left; rw [if_pos h3]
        · right; exact ⟨h1, by rw [if_neg h3]⟩
    | false =>
        rw [if_neg (by decide)]
        exact Or.inr ⟨h1, rfl⟩

/-- Invariant of the dedup fold: when the output list has no duplicates and
is contained in have_forms, the folded output still has no duplicates. -/
theorem dedup_inv (ret : List Form) : ∀ (hv out : List Form),
    out.Nodup → (∀ x ∈ out, x ∈ hv) →
    (ret.foldl dedupStep (hv, out)).2.Nodup := by
  induction ret with
  | nil => intro hv out h1 _; simpa using h1
  | cons dt rest ih =>
      intro hv out h1 h2
      simp only [List.foldl_cons]
      rcases dedupStep_cases (hv, out) dt with hc | ⟨hnm, hc⟩
      · rw [hc]; exact ih hv out h1 h2
      · rw [hc]
        refine ih _ _ ?_ ?_
        · have hdt : dt ∉ out := fun hm => hnm (h2 dt hm)
          rw [List.nodup_append]
          refine ⟨h1, List.nodup_singleton dt, ?_⟩
          intro a ha hb
          rw [List.mem_singleton] at hb
          subst hb
          exact hdt ha
        · intro x hx
          rw [List.mem_append] at hx
          rcases hx with hx | hx
          · exact List.mem_cons_of_mem _ (h2 x hx)
          · rw [List.mem_singleton] at hx
            subst hx
            exact List.mem_cons_self _ _

/-- C8 (amended): (1) starting from duplicate-free forms, the deduplicated
output holds no two structurally equal records; (2) a record carrying the
"dated" tag is suppressed whenever removing "dated" leaves a NON-EMPTY tag
list whose record is already accepted — the source demands tags2 to be
truthy, so an undated record with an empty tag list does not suppress its
dated variant. -/
theorem c8_dedup :
    (∀ initial ret, initial.Nodup → (dedupForms initial ret).Nodup)
    ∧ (∀ hv out dt, "dated" ∈ dt.tags →
        dt.tags.filter (fun t => t != "dated") ≠ [] →
        { dt with tags := dt.tags.filter (fun t => t != "dated") } ∈ hv →
        dedupStep (hv, out) dt = (hv, out)) := by
  constructor
  · intro initial ret h
    exact dedup_inv ret initial initial h (fun x hx => hx)
  · intro hv out dt h1 h2 h3
    unfold dedupStep
    by_cases h4 : dt ∈ hv
    · rw [if_pos h4]
    · have hb : dt.tags.contains "dated" = true := by
        simpa using h1
      rw [if_neg h4, hb, if_pos rfl, if_pos ⟨h2, h3⟩]

/-- C8 counterexample: with an accepted record of empty tags, its variant
with the single additional "dated" tag is NOT suppressed: both records come
out, refuting the unconditional dated-suppression rule. -/
theorem c8_counterexample :
    dedupForms [] [formR, formRD] = [formR, formRD]
    ∧ formRD.tags = formR.tags ++ ["dated"]
    ∧ formRD.form = formR.form ∧ formRD.source = formR.source
    ∧ formRD.roman = formR.roman ∧ formRD.ipa = formR.ipa
    ∧ ("dated" ∈ formRD.tags) ∧ ¬ ("dated" ∈ formR.tags) := by decide

/-- C8 witness: the amended suppression at a concrete record whose undated
variant has a non-empty tag list and is already accepted. -/
theorem c8_witness :
    dedupStep ([⟨"x", ["plural"], "s", none, none⟩], [])
        ⟨"x", ["dated", "plural"], "s", none, none⟩
      = ([⟨"x", ["plural"], "s", none, none⟩], []) :=
  c8_dedup.2 [⟨"x", ["plural"], "s", none, none⟩] []
    ⟨"x", ["dated", "plural"], "s", none, none⟩ (by decide) (by decide) (by decide)

/-- A false hasCat check means no tag of any tag-set has the category. -/
theorem hasCat_false (vt : String → String) (c : String)
    (tss : List (List String)) (h : hasCat vt c tss = false) :
    ∀ ts ∈ tss, ∀ t ∈ ts, vt t ≠ c := by
  intro ts hts t ht hcv
  have h2 : ts.any (fun t => vt t == c) = true :=
    List.any_eq_true.mpr ⟨t, ht, by simp [hcv]⟩
  have h3 : hasCat vt c tss = true := by
    unfold hasCat
    exact List.any_eq_true.mpr ⟨ts, hts, h2⟩
  rw [h] at h3
  exact Bool.false_ne_true h3

/-- Tags surviving mergeFirst come from a or from the original list. -/
theorem mergeFirst_tag_sub (vt : String → String) (a : List String) :
    ∀ (l lr : List (List String)), mergeFirst vt a l = some lr →
      ∀ x ∈ lr, ∀ t ∈ x, t ∈ a ∨ ∃ y ∈ l, t ∈ y
  | [], lr, hm => by exact Option.noConfusion hm
  | b :: rest, lr, hm => by
      unfold mergeFirst at hm
      by_cases hd : diffOneCat vt a b = true
      · rw [if_pos hd] at hm
        injection hm with hm'
        subst hm'
        intro x hx t ht
        rcases List.mem_cons.mp hx with hx | hx
        · subst hx
          rw [mem_canon, List.mem_append] at ht
          rcases ht with ht | ht
          · exact Or.inl ht
          · exact Or.inr ⟨b, List.mem_cons_self _ _, ht⟩
        · exact Or.inr ⟨x, List.mem_cons_of_mem _ hx, ht⟩
      · rw [if_neg hd] at hm
        cases hr : mergeFirst vt a rest with
        | none => rw [hr] at hm; exact Option.noConfusion hm
        | some rest' =>
            rw [hr] at hm
            injection hm with hm'
            subst hm'
            intro x hx t ht
            rcases List.mem_cons.mp hx with hx | hx
            · subst hx
              exact Or.inr ⟨x, List.mem_cons_self _ _, ht⟩
            · rcases mergeFirst_tag_sub vt a rest rest' hr x hx t ht with
                h1 | ⟨y, hy, hty⟩
              · exact Or.inl h1
              · exact Or.inr ⟨y, List.mem_cons_of_mem _ hy, hty⟩

/-- Tags surviving one collapse step come from the original list. -/
theorem collapseStep_tag_sub (vt : String → String) :
    ∀ (l lr : List (List String)), collapseStep vt l = some lr →
      ∀ x ∈ lr, ∀ t ∈ x, ∃ y ∈ l, t ∈ y
  | [], lr, hm => by exact Option.noConfusion hm
  | a :: rest, lr, hm => by
      unfold collapseStep at hm
      cases hf : mergeFirst vt a rest with
      | some rest' =>
          rw [hf] at hm
          injection hm with hm'
          subst hm'
          intro x hx t ht
          rcases mergeFirst_tag_sub vt a rest rest' hf x hx t ht with
            h1 | ⟨y, hy, hty⟩
          · exact ⟨a, List.mem_cons_self _ _, h1⟩
          · exact ⟨y, List.mem_cons_of_mem _ hy, hty⟩
      | none =>
          rw [hf] at hm
          cases hc : collapseStep vt rest with
          | none => rw [hc] at hm; exact Option.noConfusion hm
          | some rest' =>
              rw [hc] at hm
              injection hm with hm'
              subst hm'
              intro x hx t ht
              rcases List.mem_cons.mp hx with hx | hx
              · subst hx
                exact ⟨x, List.mem_cons_self _ _, ht⟩
              · obtain ⟨y, hy, hty⟩ := collapseStep_tag_sub vt rest rest' hc x hx t ht
                exact ⟨y, List.mem_cons_of_mem _ hy, hty⟩

/-- Tags surviving the full collapse come from the original list. -/
theorem collapseAll_tag_sub (vt : String → String) :
    ∀ (n : Nat) (l : List (List String)), ∀ x ∈ collapseAll vt n l, ∀ t ∈ x,
      ∃ y ∈ l, t ∈ y
  | 0, l, x, hx, t, ht => ⟨x, hx, ht⟩
  | n + 1, l, x, hx, t, ht => by
      unfold collapseAll at hx
      cases hc : collapseStep vt l with
      | none => rw [hc] at hx; exact ⟨x, hx, ht⟩
      | some l' =>
          rw [hc] at hx
          obtain ⟨y, hy, hty⟩ := collapseAll_tag_sub vt n l' x hx t ht
          exact collapseStep_tag_sub vt l l' hc y hy t hty

/-- Every tag of every merged tag-set comes from one of the two sides. -/
theorem merge_tagsets_tag_sub (vt : String → String)
    (ts1 ts2 : List (List String)) :
    ∀ x ∈ merge_tagsets vt ts1 ts2, ∀ t ∈ x,
      (∃ a ∈ ts1, t ∈ a) ∨ (∃ b ∈ ts2, t ∈ b) := by
  intro x hx t ht
  unfold merge_tagsets at hx
  dsimp only at hx
  obtain ⟨y, hy, hty⟩ := collapseAll_tag_sub vt _ _ x hx t ht
  rw [List.mem_dedup, List.mem_flatMap] at hy
  obtain ⟨a, ha, hy2⟩ := hy
  rw [List.mem_map] at hy2
  obtain ⟨b, hb, hab⟩ := hy2
  subst hab
  rw [mem_canon, List.mem_append] at hty
  rcases hty with hty | hty
  · exact Or.inl ⟨a, ha, hty⟩
  · exact Or.inr ⟨b, hb, hty⟩

/-- Merging (including the collapse of alternatives differing in a single
category) preserves at-most-one-distinct-tag-per-category-overall when one
side carries no tag of the category at all, which is what the stop rules
guarantee. -/
theorem atMostOneCatAll_merge (vt : String → String) (c : String)
    (cur ts : List (List String))
    (hcur : atMostOneCatAll vt c cur)
    (hts : atMostOneCatAll vt c ts)
    (hside : hasCat vt c cur = false ∨ hasCat vt c ts = false) :
    atMostOneCatAll vt c (merge_tagsets vt cur ts) := by
  intro ts1 h1 t1 ht1 ts2 h2 t2 ht2 hc1 hc2
  have d1 := merge_tagsets_tag_sub vt cur ts ts1 h1 t1 ht1
  have d2 := merge_tagsets_tag_sub vt cur ts ts2 h2 t2 ht2
  rcases hside with hs | hs
  · have hna := hasCat_false vt c cur hs
    rcases d1 with ⟨a, ha, hta⟩ | ⟨b1, hb1, htb1⟩
    · exact absurd hc1 (hna a ha t1 hta)
    · rcases d2 with ⟨a, ha, hta⟩ | ⟨b2, hb2, htb2⟩
      · exact absurd hc2 (hna a ha t2 hta)
      · exact hts b1 hb1 t1 htb1 b2 hb2 t2 htb2 hc1 hc2
  · have hnb := hasCat_false vt c ts hs
    rcases d1 with ⟨a1, ha1, hta1⟩ | ⟨b, hb, htb⟩
    · rcases d2 with ⟨a2, ha2, hta2⟩ | ⟨b, hb, htb⟩
      · exact hcur a1 ha1 t1 hta1 a2 ha2 t2 hta2 hc1 hc2
      · exact absurd hc2 (hnb b hb t2 htb)
    · exact absurd hc1 (hnb b hb t1 htb)

/-- A span candidate is the span's own tag-sets, the unconstrained set, or
nothing. -/
theorem spanCandidate_cases (vt : String → String) (all : List (Nat × HdrSpan))
    (start colspan : Nat) (i : Nat) (h : HdrSpan) :
    spanCandidate vt all start colspan i h = none
    ∨ spanCandidate vt all start colspan i h = some h.tagsets
    ∨ spanCandidate vt all start colspan i h = some [[]] := by
  unfold spanCandidate
  split
  · split
    · dsimp only
      split
      · right; right; rfl
      · right; left; rfl
    · left; rfl
  · right; left; rfl

/-- Members of the indexed span list are spans of the original list. -/
theorem mem_enumFrom : ∀ (n : Nat) (l : List HdrSpan) (p : Nat × HdrSpan),
    p ∈ enumFrom n l → p.2 ∈ l
  | _, [], p, h => absurd h (List.not_mem_nil p)
  | n, x :: t, p, h => by
      rw [enumFrom] at h
      rcases List.mem_cons.mp h with h | h
      · subst h; exact List.mem_cons_self _ _
      · exact List.mem_cons_of_mem _ (mem_enumFrom (n + 1) t p h)

/-- A proved span candidate inherits a whole-list property from the span
(the unconstrained candidate set([()]) has its own hypothesis). -/
theorem spanCandidate_prop (vt : String → String) (all : List (Nat × HdrSpan))
    (start colspan i : Nat) (h : HdrSpan) {P : List (List String) → Prop}
    (hh : P h.tagsets) (hnil : P [[]])
    (tss : List (List String))
    (hsc : spanCandidate vt all start colspan i h = some tss) :
    P tss := by
  rcases spanCandidate_cases vt all start colspan i h with hc | hc | hc <;>
    rw [hc] at hsc
  · exact Option.noConfusion hsc
  · injection hsc with h'
    subst h'
    exact hh
  · injection hsc with h'
    subst h'
    exact hnil

/-- Invariant of the compute_coltags walk: when every remaining span's
tag-sets mention at most one distinct mood tag and at most one distinct
number tag across their alternatives, and the accumulator does likewise,
so does the final accumulator.  The stop rules make the merge cases sound:
a merge only happens when at most one side mentions the mood category
(stop rule 3) and at most one side mentions the number category (stop rule
4), so the merge — its collapse of alternatives included — can only draw
mood (number) tags from one side; the detail-rule merge only happens over
an accumulator with no tags at all. -/
theorem coltagsLoop_inv (vt : String → String) (all : List (Nat × HdrSpan))
    (start colspan : Nat) :
    ∀ (rem : List (Nat × HdrSpan)) (uk : List (Nat × Nat))
      (ct : Option (List (List String))) (mk : List Nat),
      (∀ p ∈ rem, atMostOneCatAll vt "mood" p.2.tagsets
        ∧ atMostOneCatAll vt "number" p.2.tagsets) →
      (∀ cur, ct = some cur → atMostOneCatAll vt "mood" cur
        ∧ atMostOneCatAll vt "number" cur) →
      ∀ res, (coltagsLoop vt all start colspan rem uk ct mk).1 = some res →
        atMostOneCatAll vt "mood" res ∧ atMostOneCatAll vt "number" res
  | [], uk, ct, mk, hrem, hct, res, hres => by
      rw [coltagsLoop] at hres
      exact hct res hres
  | (i, h) :: rest, uk, ct, mk, hrem, hct, res, hres => by
      have hrem' : ∀ p ∈ rest, atMostOneCatAll vt "mood" p.2.tagsets
          ∧ atMostOneCatAll vt "number" p.2.tagsets :=
        fun p hp => hrem p (List.mem_cons_of_mem _ hp)
      have hhead : atMostOneCatAll vt "mood" h.tagsets
          ∧ atMostOneCatAll vt "number" h.tagsets :=
        hrem (i, h) (List.mem_cons_self _ _)
      have hnil : atMostOneCatAll vt "mood" [[]]
          ∧ atMostOneCatAll vt "number" [[]] := by
        constructor
        all_goals
          intro ts1 h1 t1 ht1 ts2 h2 t2 ht2 _ _
          rw [List.mem_singleton] at h1
          subst h1
          exact absurd ht1 (List.not_mem_nil t1)
      rw [coltagsLoop] at hres
      cases hsc : spanCandidate vt all start colspan i h with
      | none =>
          rw [hsc] at hres
          dsimp only at hres
          exact coltagsLoop_inv vt all start colspan rest uk ct mk
            hrem' hct res hres
      | some tss =>
          rw [hsc] at hres
          dsimp only at hres
          have htags : atMostOneCatAll vt "mood" tss
              ∧ atMostOneCatAll vt "number" tss :=
            @spanCandidate_prop vt all start colspan i h
              (fun tss => atMostOneCatAll vt "mood" tss
                ∧ atMostOneCatAll vt "number" tss) hhead hnil tss hsc
          by_cases huk : ((h.start, h.colspan) ∈ uk)
          · rw [if_pos huk] at hres
            exact coltagsLoop_inv vt all start colspan rest uk ct mk
              hrem' hct res hres
          · rw [if_neg huk] at hres
            cases ct with
            | none =>
                dsimp only at hres
                refine coltagsLoop_inv vt all start colspan rest _ _ _
                  hrem' ?_ res hres
                intro cur hcur
                injection hcur with h'
                subst h'
                exact htags
            | some cur =>
                dsimp only at hres
                have hcur : atMostOneCatAll vt "mood" cur
                    ∧ atMostOneCatAll vt "number" cur :=
                  hct cur rfl
                by_cases hg1 : hasCat vt "detail" tss = true
                · rw [if_pos hg1] at hres
                  have h' := Option.some.inj hres
                  subst h'
                  by_cases hall : cur.all (fun ts => ts = []) = true
                  · rw [if_pos hall]
                    have hempty : ∀ c, hasCat vt c cur = false := by
                      intro c
                      cases hmc : hasCat vt c cur with
                      | false => rfl
                      | true =>
                          exfalso
                          unfold hasCat at hmc
                          rw [List.any_eq_true] at hmc
                          obtain ⟨ts0, hts0, hany⟩ := hmc
                          rw [List.any_eq_true] at hany
                          obtain ⟨t0, ht0, _⟩ := hany
                          rw [List.all_eq_true] at hall
                          have h0 := hall ts0 hts0
                          rw [decide_eq_true_eq] at h0
                          subst h0
                          exact absurd ht0 (List.not_mem_nil t0)
                    exact ⟨atMostOneCatAll_merge vt "mood" cur tss
                        hcur.1 htags.1 (Or.inl (hempty "mood")),
                      atMostOneCatAll_merge vt "number" cur tss
                        hcur.2 htags.2 (Or.inl (hempty "number"))⟩
                  · rw [if_neg hall]
                    exact hcur
                · rw [if_neg hg1] at hres
                  by_cases hg2 : (hasCat vt "non-finite" tss
                      && (hasCat vt "mood" cur || hasCat vt "tense" cur
                          || hasCat vt "non-finite" cur || hasCat vt "person" cur
                          || hasCat vt "number" cur)) = true
                  · rw [if_pos hg2] at hres
                    have h' := Option.some.inj hres
                    subst h'
                    exact hcur
                  · rw [if_neg hg2] at hres
                    by_cases hg3 : (hasCat vt "mood" tss
                        && hasCat vt "mood" cur) = true
                    · rw [if_pos hg3] at hres
                      have h' := Option.some.inj hres
                      subst h'
                      exact hcur
                    · rw [if_neg hg3] at hres
                      by_cases hg4 : (hasCat vt "number" cur
                          && hasCat vt "number" tss) = true
                      · rw [if_pos hg4] at hres
                        have h' := Option.some.inj hres
                        subst h'
                        exact hcur
                      · rw [if_neg hg4] at hres
                        by_cases hg5 : (hasCat vt "number" cur
                            && hasCat vt "gender" tss) = true
                        · rw [if_pos hg5] at hres
                          have h' := Option.some.inj hres
                          subst h'
                          exact hcur
                        · rw [if_neg hg5] at hres
                          have hsideM : hasCat vt "mood" cur = false
                              ∨ hasCat vt "mood" tss = false := by
                            cases hmt : hasCat vt "mood" tss with
                            | false => exact Or.inr rfl
                            | true =>
                                cases hmc : hasCat vt "mood" cur with
                                | false => exact Or.inl rfl
                                | true =>
                                    exfalso
                                    apply hg3
                                    rw [hmt, hmc]
                                    rfl
                          have hsideN : hasCat vt "number" cur = false
                              ∨ hasCat vt "number" tss = false := by
                            cases hnc : hasCat vt "number" cur with
                            | false => exact Or.inl rfl
                            | true =>
                                cases hnt : hasCat vt "number" tss with
                                | false => exact Or.inr rfl
                                | true =>
                                    exfalso
                                    apply hg4
                                    rw [hnc, hnt]
                                    rfl
                          refine coltagsLoop_inv vt all start colspan rest _ _ _
                            hrem' ?_ res hres
                          intro cur' hcur'
                          injection hcur' with h'
                          subst h'
                          exact ⟨atMostOneCatAll_merge vt "mood" cur tss
                              hcur.1 htags.1 hsideM,
                            atMostOneCatAll_merge vt "number" cur tss
                              hcur.2 htags.2 hsideN⟩

/-- The collapse rule in action: merging the two one-mood alternatives
indicative/subjunctive with the single number alternative singular collapses
the cross-product pair (which differs only in the mood category) into ONE
tag-set carrying both mood tags — which is why a per-tag-set premise cannot
sustain the claimed invariant. -/
theorem merge_tagsets_collapse_demo :
    merge_tagsets vtM [["indicative"], ["subjunctive"]] [["singular"]]
      = [["indicative", "singular", "subjunctive"]] := by decide

/-- C5 (amended): when every header span's tag-sets mention at most one
distinct mood tag and at most one distinct number tag ACROSS all their
alternatives, every tag-set composed by compute_coltags contains at most
one mood tag and at most one number tag.  The per-tag-set premise would not
suffice: the merge collapses alternatives differing only in the mood
(number) category into their union, so a span whose alternatives carry
different mood tags can produce a composed set with several; and with no
premise at all the claim fails already on a single span adopted wholesale
(see the counterexample). -/
theorem c5_coltags_mood_number (vt : String → String) (spans : List HdrSpan)
    (start colspan : Nat) (mu : Bool)
    (h : ∀ s ∈ spans, atMostOneCatAll vt "mood" s.tagsets
        ∧ atMostOneCatAll vt "number" s.tagsets) :
    ∀ ts ∈ (compute_coltags vt spans start colspan mu).1,
      atMostOneCat vt "mood" ts ∧ atMostOneCat vt "number" ts := by
  intro ts hts
  unfold compute_coltags at hts
  dsimp only at hts
  cases hr : (coltagsLoop vt (enumFrom 0 spans) start colspan
      (enumFrom 0 spans).reverse [] none []).1 with
  | none =>
      rw [hr] at hts
      dsimp only at hts
      rw [List.mem_singleton] at hts
      subst hts
      constructor <;> intro t1 ht1 t2 ht2 _ _ <;>
        exact absurd ht1 (List.not_mem_nil t1)
  | some ct =>
      rw [hr] at hts
      dsimp only at hts
      have hall := coltagsLoop_inv vt (enumFrom 0 spans) start colspan
        (enumFrom 0 spans).reverse [] none []
        (fun p hp => h p.2 (mem_enumFrom 0 spans p (List.mem_reverse.mp hp)))
        (fun cur hcur => Option.noConfusion hcur)
        ct hr
      exact ⟨fun t1 ht1 t2 ht2 => hall.1 ts hts t1 ht1 ts hts t2 ht2,
        fun t1 ht1 t2 ht2 => hall.2 ts hts t1 ht1 ts hts t2 ht2⟩

/-- C5 counterexample: a single span exactly covering the queried window is
adopted wholesale, so a tag-set holding the two mood tags indicative and
subjunctive comes out of the composer unchanged — the claimed at-most-one-
mood invariant fails on it. -/
theorem c5_counterexample :
    (["indicative", "subjunctive"] ∈ (compute_coltags vtM [spanM] 0 1 false).1)
    ∧ vtM "indicative" = "mood" ∧ vtM "subjunctive" = "mood"
    ∧ ¬ atMostOneCat vtM "mood" ["indicative", "subjunctive"] := by decide

/-- C5 witness: the amended invariant at a concrete one-span list whose
sole span mentions one mood tag overall. -/
theorem c5_witness :
    atMostOneCat vtM "mood" ["indicative"]
    ∧ atMostOneCat vtM "number" ["indicative"] :=
  c5_coltags_mood_number vtM [spanW] 0 1 false (by decide) ["indicative"] (by decide)

/-- C2 (amended): a header cell whose cleaned text is non-empty, resolves
neither directly nor through its paren-stripped or comma-collapsed variants,
has no prefix-map match, and is not an ignored column value, causes exactly
one diagnostic to be recorded and nothing else: no placeholder form record
is emitted (ret is unchanged), col_has_text is not marked, and parsing
continues with all other state intact.  (The source assigns the local text
"error-unrecognized-form" but then skips the cell before using it.) -/
theorem c2_unrecognized_header (ext : Collab) (tc : TCtx) (j : Nat)
    (cell : InflCell) (first : Bool) (st : PST) (rs : RState)
    (h1 : (ext.clean_header (ext.sub_ws cell.text) true).text ≠ "")
    (h2a : (alookup ext.infl_map
        (ext.clean_header (ext.sub_ws cell.text) true).text).isSome = false)
    (h2b : (alookup ext.infl_map
        (ext.strip_paren (ext.clean_header (ext.sub_ws cell.text) true).text)).isSome
        = false)
    (h2c : (alookup ext.infl_map
        (ext.collapse_commas
          (ext.clean_header (ext.sub_ws cell.text) true).text)).isSome = false)
    (h2d : (ext.infl_start
        (ext.clean_header (ext.sub_ws cell.text) true).text).isSome = false)
    (h3 : (ext.clean_header (ext.sub_ws cell.text) true).text ∉ IGNORED_COLVALUES) :
    processHeaderCell ext tc j cell first st rs
      = ({ st with debug := st.debug ++ [mkUnhandledMsg (ext.sub_ws cell.text)] }, rs) := by
  have hr : headerResolve ext (ext.clean_header (ext.sub_ws cell.text) true).text
      = none := by
    unfold headerResolve
    dsimp only
    rw [h2a, h2b, h2c, h2d]
    rfl
  unfold processHeaderCell
  dsimp only
  rw [if_neg h1, hr]
  dsimp only
  rw [if_neg h3]

/-- C2 witness: the unrecognized header "Zzz" at a concrete state. -/
theorem c2_witness :
    processHeaderCell extC tcC 0 (hcell 1 "Zzz") true (initPST extC tcC []) initRS
      = ({ initPST extC tcC [] with debug := [mkUnhandledMsg "Zzz"] }, initRS) :=
  c2_unrecognized_header extC tcC 0 (hcell 1 "Zzz") true (initPST extC tcC [])
    initRS (by decide) (by decide) (by decide) (by decide) (by decide) (by decide)

/-- C2 counterexample: a table with two unrecognized headers.  The claimed
placeholder record (form "error-unrecognized-form") is never emitted: the
driver records the two diagnostics and returns the empty record list. -/
theorem c2_counterexample :
    ((extC.clean_header (extC.sub_ws (hcell 1 "Zzz").text) true).text = "Zzz"
      ∧ (alookup extC.infl_map "Zzz").isSome = false
      ∧ (extC.infl_start "Zzz").isSome = false
      ∧ "Zzz" ∉ IGNORED_COLVALUES)
    ∧ parse_simple_table extC tcC [[hcell 1 "Zzz", hcell 2 "Qqq"]] []
      = (some [], [mkUnhandledMsg "Zzz", mkUnhandledMsg "Qqq"]) := by decide

/-- The sub-title branch of the row loop as one equation. -/
theorem processRow_subtitle (ext : Collab) (tc : TCtx) (st : PST)
    (c0 : InflCell) (rest : List InflCell)
    (hsub : isSubTitleRow ext (c0 :: rest) = true) :
    processRow ext tc st (c0 :: rest)
      = (if st.title.isSome then st
         else if strStarts c0.text "Note:" || strStarts c0.text "Notes:" then
           { st with title := some c0.text }
         else
           { st with title := some c0.text,
                     global_tags := st.global_tags
                       ++ (ext.parse_title c0.text tc.source).1,
                     word_tags := st.word_tags
                       ++ (ext.parse_title c0.text tc.source).2.1,
                     ret := st.ret ++ (ext.parse_title c0.text tc.source).2.2 }) := by
  unfold processRow
  rw [hsub]
  dsimp only [List.isEmpty_cons]
  rfl

/-- C3 (amended): the driver treats a row as a sub-title only under the
source's full test (first cell is a header whose non-empty text does not
start with a superscript and resolves in neither header map, and every cell
carries the identical (is_title, text) pair); such a row is skipped without
touching row number or header spans, and the title parser runs only when no
earlier title exists and the text is not a Note:/Notes: line. -/
theorem c3_subtitle_row (ext : Collab) (tc : TCtx) (st : PST)
    (c0 : InflCell) (rest : List InflCell)
    (hsub : isSubTitleRow ext (c0 :: rest) = true) :
    (processRow ext tc st (c0 :: rest)).rownum = st.rownum
    ∧ (processRow ext tc st (c0 :: rest)).hdrspans = st.hdrspans
    ∧ (st.title.isSome = true → processRow ext tc st (c0 :: rest) = st)
    ∧ (st.title = none →
        (strStarts c0.text "Note:" || strStarts c0.text "Notes:") = true →
        processRow ext tc st (c0 :: rest) = { st with title := some c0.text })
    ∧ (st.title = none →
        (strStarts c0.text "Note:" || strStarts c0.text "Notes:") = false →
        processRow ext tc st (c0 :: rest)
          = { st with title := some c0.text,
                      global_tags := st.global_tags
                        ++ (ext.parse_title c0.text tc.source).1,
                      word_tags := st.word_tags
                        ++ (ext.parse_title c0.text tc.source).2.1,
                      ret := st.ret ++ (ext.parse_title c0.text tc.source).2.2 }) := by
  have he := processRow_subtitle ext tc st c0 rest hsub
  refine ⟨?_, ?_, ?_, ?_, ?_⟩
  · rw [he]; split
    · rfl
    · split <;> rfl
  · rw [he]; split
    · rfl
    · split <;> rfl
  · intro ht; rw [he, if_pos ht]
  · intro ht hn
    rw [he]
    have ht' : st.title.isSome = false := by rw [ht]; rfl
    rw [ht', if_neg (by simp), hn, if_pos rfl]
  · intro ht hn
    rw [he]
    have ht' : st.title.isSome = false := by rw [ht]; rfl
    rw [ht', if_neg (by simp), hn, if_neg (by simp)]

/-- C3 witness: a concrete sub-title row leaves the row number at zero. -/
theorem c3_witness :
    (processRow extC tcC (initPST extC tcC []) [hcell 1 "T", hcell 2 "T"]).rownum
      = 0 :=
  (c3_subtitle_row extC tcC (initPST extC tcC []) (hcell 1 "T") [hcell 2 "T"]
    (by decide)).1

/-- C3 counterexample: a row of two identical non-header cells satisfies the
claim's trigger (every non-empty cell has identical (is_header, text)), but
the driver processes it as a data row and emits a form record from it
instead of treating it as a sub-title and skipping it. -/
theorem c3_counterexample :
    (∀ c ∈ [dcell 1 "x", dcell 2 "x"], c.text ≠ "" ∧ c.is_title = false
      ∧ c.text = "x")
    ∧ (parse_simple_table extC tcC [[dcell 1 "x", dcell 2 "x"]] []).1
      = some [⟨"x", [], "s", none, none⟩] := by decide

/-- C4 (amended): the end-of-row column-0 widening is governed by the
followed-flag, not by "non-empty data cell" alone: (1) a data cell holding
an ignored column value (e.g. "-") is skipped entirely and does NOT block
the widening even though its text is non-empty; (2) a data cell passing all
skip tests does set the flag; (3) at end of row the column-0 span's colspan
is overwritten with the row length exactly when the span exists and the
flag is still false, and the span list is otherwise returned as the cell
loop left it.  (Tag-producing later header cells can also set the flag, so
the original claim's "data cell" wording fails in both directions.) -/
theorem c4_widening :
    (∀ (ext : Collab) (tc : TCtx) (j : Nat) (cell : InflCell) (st : PST)
        (rs : RState), cell.text ∈ IGNORED_COLVALUES →
        processDataCell ext tc j cell st rs = (st, rs))
    ∧ (∀ (ext : Collab) (tc : TCtx) (j : Nat) (cell : InflCell) (st : PST)
        (rs : RState), cell.text ∉ IGNORED_COLVALUES →
        (strStarts cell.text "# " || strStarts cell.text "(see ") = false →
        (j == 0 && !(st.col_has_text.getD 0 false)) = false →
        (processDataCell ext tc j cell st rs).2.col0_followed = true)
    ∧ (∀ (ext : Collab) (tc : TCtx) (st : PST) (row : List InflCell),
        row.isEmpty = false → isSubTitleRow ext row = false →
        (∀ idx, (cellsFold ext tc 0 0 row (st, initRS)).2.col0_hdrspan = some idx →
          (cellsFold ext tc 0 0 row (st, initRS)).2.col0_followed = false →
          (processRow ext tc st row).hdrspans
            = widenAt (cellsFold ext tc 0 0 row (st, initRS)).1.hdrspans idx
                row.length)
        ∧ ((cellsFold ext tc 0 0 row (st, initRS)).2.col0_hdrspan = none →
          (processRow ext tc st row).hdrspans
            = (cellsFold ext tc 0 0 row (st, initRS)).1.hdrspans)
        ∧ (∀ idx, (cellsFold ext tc 0 0 row (st, initRS)).2.col0_hdrspan = some idx →
          (cellsFold ext tc 0 0 row (st, initRS)).2.col0_followed = true →
          (processRow ext tc st row).hdrspans
            = (cellsFold ext tc 0 0 row (st, initRS)).1.hdrspans)) := by
  refine ⟨?_, ?_, ?_⟩
  · intro ext tc j cell st rs h
    unfold processDataCell
    rw [if_pos h]
  · intro ext tc j cell st rs h1 h2 h3
    unfold processDataCell
    rw [if_neg h1, h2, if_neg (by decide), h3, if_neg (by decide)]
  · intro ext tc st row hemp hsub
    have hP : processRow ext tc st row
        = (let s1 := cellsFold ext tc 0 0 row (st, initRS)
           let st2 := match s1.2.col0_hdrspan with
             | some idx =>
                 if !s1.2.col0_followed then
                   { s1.1 with hdrspans := widenAt s1.1.hdrspans idx row.length }
                 else s1.1
             | none => s1.1
           { st2 with rownum := st2.rownum + 1 }) := by
      unfold processRow
      rw [hemp, hsub]
      rfl
    refine ⟨?_, ?_, ?_⟩
    · intro idx hidx hfl
      rw [hP]
      dsimp only
      rw [hidx, hfl]
      rfl
    · intro hnone
      rw [hP]
      dsimp only
      rw [hnone]
    · intro idx hidx hfl
      rw [hP]
      dsimp only
      rw [hidx, hfl]
      rfl

/-- C4 witness: the ignored data cell "-" leaves driver and row state
untouched. -/
theorem c4_witness :
    processDataCell extC tcC 1 (dcell 2 "-") (initPST extC tcC []) initRS
      = (initPST extC tcC [], initRS) :=
  c4_widening.1 extC tcC 1 (dcell 2 "-") (initPST extC tcC []) initRS (by decide)

/-- C4 counterexample: a row whose column-0 header is followed by the
non-empty data cell "-".  The claim forbids widening ("only then"), yet the
driver widens the span to the full row length 2 because the ignored cell
never set the followed-flag. -/
theorem c4_counterexample :
    ((dcell 2 "-").is_title = false ∧ (dcell 2 "-").text = "-" ∧ "-" ≠ ""
      ∧ (hcell 1 "Hx").is_title = true)
    ∧ (processRow extC tcC (initPST extC tcC []) [hcell 1 "Hx", dcell 2 "-"]).hdrspans
      = [⟨0, 2, 0, [["singular"]], false, "Hx"⟩]
    ∧ [hcell 1 "Hx", dcell 2 "-"].length = 2 := by decide
